import Mathlib

/-!
Shallow embedding of the vctr Vector arithmetic engine from
src/include/vector.h, instantiated at the integer element type that the
repository uses throughout (Vector<int>). Machine integers are modelled as
ideal integers (Int); size_t arithmetic in the bounds check, where the
source can underflow, is modelled on Nat with an explicit wrap at 2^64.
Exceptions are modelled with Except String carrying the thrown message;
moves are modelled by explicit state passing (the function returns the
written-to object together with the moved-from source).
-/

namespace Vctr

/-- Width bound of size_t: 2 to the 64. -/
def size64 : Nat := 2 ^ 64

/-- Subtraction of one on size_t, as it occurs in the bounds check
`index > m_dimensions - 1` of operator[]: wraps to 2^64 - 1 when the
operand is 0. -/
def sub1szt (d : Nat) : Nat := (d + (size64 - 1)) % size64

/-- Message of the std::runtime_error thrown by operator[] (vector.h line 309). -/
def msgOutOfBounds : String := "index out of bounds."

/-- Message of the std::runtime_error thrown by operator+ and operator-
(vector.h lines 366 and 409). -/
def msgUnequalSizes : String := "unequal vector sizes."

/-- Message of the std::runtime_error thrown by dot_product (vector.h line 456). -/
def msgDotMismatch : String := "cannot dot_product 2 different sizes."

/-- Vector<T> at T = int: `m_data` is the owned buffer, modelled as a list;
`m_dimensions` always equals the buffer length, so it is represented by
`data.length` (the class invariant: the buffer holds exactly m_dimensions
elements). -/
structure Vector where
  data : List Int
deriving DecidableEq, Repr

/-- Accessor dimensions(): returns m_dimensions. -/
def Vector.dimensions (v : Vector) : Nat := v.data.length

/-- Constructor from an initializer list (vector.h line 125): dimensions =
list size, buffer copied in order. -/
def Vector.ofList (list : List Int) : Vector := ⟨list⟩

/-- Constructor Vector(dimensions, default_value) (vector.h line 138): every
slot set to the default value. -/
def Vector.mkFill (dims : Nat) (default_value : Int) : Vector :=
  ⟨List.replicate dims default_value⟩

/-- Constructor Vector(dimensions) (vector.h line 153): `new T[dimensions]`
leaves the elements default-initialized — per the source's own comment they
"may contain garbage values". The parameter `junk` models the indeterminate
contents of the freshly allocated buffer: slot i holds `junk i`. -/
def Vector.mkSized (dims : Nat) (junk : Nat → Int) : Vector :=
  ⟨(List.range dims).map junk⟩

/-- Element read through operator[] (vector.h lines 305-312 and 318-325):
the source checks `index > m_dimensions - 1` on size_t and throws
"index out of bounds." when it holds; otherwise it reads m_data[index].
When m_dimensions is 0 the check underflows and the read can go past the
buffer; such an out-of-allocation read is modelled as `Option.none`. -/
def Vector.getIdx (v : Vector) (index : Nat) : Except String (Option Int) :=
  if sub1szt v.dimensions < index then .error msgOutOfBounds
  else .ok (v.data.get? index)

/-- Element write through the non-const operator[] (vector.h lines 305-312),
same bounds check as the read; an in-bounds write stores x at the index. -/
def Vector.setIdx (v : Vector) (index : Nat) (x : Int) : Except String Vector :=
  if sub1szt v.dimensions < index then .error msgOutOfBounds
  else .ok ⟨v.data.set index x⟩

/-- Elementwise loop of operator== (vector.h lines 337-343): walks the two
buffers in step and exits false at the first mismatching pair. -/
def eqElems : List Int → List Int → Bool
  | a :: as, b :: bs => if a ≠ b then false else eqElems as bs
  | _, _ => true

/-- operator== (vector.h lines 331-345): false when dimensions differ,
otherwise the elementwise walk. -/
def Vector.veq (v rhs : Vector) : Bool :=
  if rhs.dimensions ≠ v.dimensions then false
  else eqElems v.data rhs.data

/-- operator!= (vector.h lines 350-353): negation of operator==. -/
def Vector.vne (v rhs : Vector) : Bool := !(v.veq rhs)

/-- Size threshold above which the arithmetic operations switch from the
sequential to the parallel execution policy (vector.h lines 373, 416, 458). -/
def limit_size_for_parallelization : Nat := 1000

/-- Sequential std::transform pass of operator+ (vector.h lines 385-390):
writes a + b position by position. -/
def addSeq : List Int → List Int → List Int
  | a :: as, b :: bs => (a + b) :: addSeq as bs
  | _, _ => []

/-- Parallel std::transform of operator+ (vector.h lines 377-383): the range
is partitioned across execution units, but each output slot is written
exactly once with the sum of the corresponding inputs, so the elementwise
result is the same map regardless of scheduling. -/
def addPar (a b : List Int) : List Int := List.zipWith (fun x y => x + y) a b

/-- Sequential std::transform pass of operator- (vector.h lines 428-433). -/
def subSeq : List Int → List Int → List Int
  | a :: as, b :: bs => (a - b) :: subSeq as bs
  | _, _ => []

/-- Parallel std::transform of operator- (vector.h lines 420-426). -/
def subPar (a b : List Int) : List Int := List.zipWith (fun x y => x - y) a b

/-- operator+ (vector.h lines 362-394): throws on unequal sizes, returns a
fresh empty vector when the operands are zero-dimension, and otherwise fills
a newly constructed result buffer elementwise, by the parallel policy above
the size threshold and sequentially at or below it. -/
def Vector.add (v rhs : Vector) : Except String Vector :=
  if rhs.dimensions ≠ v.dimensions then .error msgUnequalSizes
  else if v.dimensions = 0 then .ok ⟨[]⟩
  else if limit_size_for_parallelization < v.dimensions then .ok ⟨addPar v.data rhs.data⟩
  else .ok ⟨addSeq v.data rhs.data⟩

/-- operator- (vector.h lines 405-437): same structure as operator+ with
pairwise difference. -/
def Vector.sub (v rhs : Vector) : Except String Vector :=
  if rhs.dimensions ≠ v.dimensions then .error msgUnequalSizes
  else if v.dimensions = 0 then .ok ⟨[]⟩
  else if limit_size_for_parallelization < v.dimensions then .ok ⟨subPar v.data rhs.data⟩
  else .ok ⟨subSeq v.data rhs.data⟩

/-- Sequential loop of dot_product (vector.h lines 472-477):
`result += lhs[i] * rhs[i]` with accumulator initialised to T() = 0. -/
def dotSeqAux : Int → List Int → List Int → Int
  | acc, a :: as, b :: bs => dotSeqAux (acc + a * b) as bs
  | acc, _, _ => acc

/-- Sequential dot product: the loop started at accumulator 0. -/
def dotSeq (lhs rhs : List Int) : Int := dotSeqAux 0 lhs rhs

/-- Parallel std::transform_reduce branch of dot_product (vector.h lines
461-468): a generalized sum, in unspecified order and grouping, of the
pairwise products with initial value T() = 0; over the integers every such
grouping has the same value, the list sum of the products, which is how it
is modelled. -/
def dotPar (lhs rhs : List Int) : Int := (List.zipWith (fun x y => x * y) lhs rhs).sum

/-- Free function dot_product(rhs, lhs) (vector.h lines 451-479): throws on
unequal sizes, then reduces the pairwise products by the parallel policy
above the size threshold and by the sequential loop at or below it. Note the
source performs no emptiness check: two zero-dimension operands fall through
to the sequential branch and return the accumulator T() = 0. -/
def dot_product (rhs lhs : Vector) : Except String Int :=
  if lhs.dimensions ≠ rhs.dimensions then .error msgDotMismatch
  else if limit_size_for_parallelization < lhs.dimensions then .ok (dotPar lhs.data rhs.data)
  else .ok (dotSeq lhs.data rhs.data)

/-- Sum of squares computed inside magnitude() (vector.h lines 255-281): both
the sequential and the parallel transform_reduce branch reduce the squares
value * value of all elements with initial value 0.0; for integer elements
the double accumulator and the assignment back to `T sum_squares` are exact,
so the sum is modelled on ideal integers. -/
def Vector.sumSquares (v : Vector) : Int := (v.data.map fun value => value * value).sum

/-- magnitude() (vector.h lines 255-281): the square root of the sum of
squares of the elements. -/
noncomputable def Vector.magnitude (v : Vector) : ℝ := Real.sqrt (v.sumSquares : ℝ)

/-- Move constructor (vector.h lines 177-183), by state passing: the first
component is the newly constructed vector, which takes over the source's
buffer and dimensions; the second is the moved-from source, whose dimensions
are set to 0 and whose buffer pointer is nulled. -/
def Vector.moveCtor (rhs : Vector) : Vector × Vector := (⟨rhs.data⟩, ⟨[]⟩)

/-- Move assignment between distinct objects (vector.h lines 217-232), by
state passing: the first component is the assigned-to vector after its old
buffer is deleted and the source's buffer and dimensions are taken over; the
second is the moved-from source, zeroed and nulled. -/
def Vector.moveAssign (_self rhs : Vector) : Vector × Vector := (⟨rhs.data⟩, ⟨[]⟩)

/-! Helper lemmas about the embedded operations. -/

/-- The size_t bounds-check quantity for a zero-dimension vector: the
subtraction underflows to 2^64 - 1. -/
theorem sub1szt_zero : sub1szt 0 = size64 - 1 := by
  have h : size64 - 1 < size64 := by norm_num [size64]
  simp [sub1szt, Nat.mod_eq_of_lt h]

/-- For a positive dimension below 2^64 the size_t subtraction is the
ordinary one. -/
theorem sub1szt_pos {d : Nat} (h1 : 0 < d) (h2 : d < size64) : sub1szt d = d - 1 := by
  have h0 : 0 < size64 := by norm_num [size64]
  have h3 : d + (size64 - 1) = size64 + (d - 1) := by omega
  rw [sub1szt, h3, Nat.add_mod_left, Nat.mod_eq_of_lt (by omega)]

/-- The sequential transform pass of operator+ computes the same elementwise
map as the parallel pass. -/
theorem addSeq_eq_zipWith : ∀ a b : List Int, addSeq a b = List.zipWith (fun x y => x + y) a b
  | [], [] => rfl
  | [], _ :: _ => rfl
  | _ :: _, [] => rfl
  | x :: xs, y :: ys => by
      simp only [addSeq, List.zipWith]
      exact congrArg _ (addSeq_eq_zipWith xs ys)

/-- The sequential transform pass of operator- computes the same elementwise
map as the parallel pass. -/
theorem subSeq_eq_zipWith : ∀ a b : List Int, subSeq a b = List.zipWith (fun x y => x - y) a b
  | [], [] => rfl
  | [], _ :: _ => rfl
  | _ :: _, [] => rfl
  | x :: xs, y :: ys => by
      simp only [subSeq, List.zipWith]
      exact congrArg _ (subSeq_eq_zipWith xs ys)

/-- The accumulator loop of the sequential dot product adds the sum of the
pairwise products to the accumulator. -/
theorem dotSeqAux_eq : ∀ (l r : List Int) (acc : Int),
    dotSeqAux acc l r = acc + (List.zipWith (fun x y => x * y) l r).sum
  | [], [], acc => by simp [dotSeqAux]
  | [], _ :: _, acc => by simp [dotSeqAux]
  | _ :: _, [], acc => by simp [dotSeqAux]
  | x :: xs, y :: ys, acc => by
      simp only [dotSeqAux, List.zipWith, List.sum_cons]
      rw [dotSeqAux_eq xs ys]
      ring

/-- The sequential dot product loop equals the sum of the pairwise products. -/
theorem dotSeq_eq (l r : List Int) :
    dotSeq l r = (List.zipWith (fun x y => x * y) l r).sum := by
  rw [dotSeq, dotSeqAux_eq, zero_add]

/-- With equal dimensions, operator+ succeeds and returns the elementwise sum,
whichever execution branch runs. -/
theorem add_ok (a b : Vector) (h : a.dimensions = b.dimensions) :
    a.add b = .ok ⟨List.zipWith (fun x y => x + y) a.data b.data⟩ := by
  unfold Vector.add
  rw [if_neg (not_not_intro h.symm)]
  by_cases h0 : a.dimensions = 0
  · rw [if_pos h0]
    have ha : a.data = [] := List.length_eq_zero.mp h0
    have hb : b.data = [] := List.length_eq_zero.mp (h.symm.trans h0)
    rw [ha, hb]
    rfl
  · rw [if_neg h0]
    by_cases hpar : limit_size_for_parallelization < a.dimensions
    · rw [if_pos hpar]; rfl
    · rw [if_neg hpar]
      rw [addSeq_eq_zipWith]

/-- With equal dimensions, operator- succeeds and returns the elementwise
difference, whichever execution branch runs. -/
theorem sub_ok (a b : Vector) (h : a.dimensions = b.dimensions) :
    a.sub b = .ok ⟨List.zipWith (fun x y => x - y) a.data b.data⟩ := by
  unfold Vector.sub
  rw [if_neg (not_not_intro h.symm)]
  by_cases h0 : a.dimensions = 0
  · rw [if_pos h0]
    have ha : a.data = [] := List.length_eq_zero.mp h0
    have hb : b.data = [] := List.length_eq_zero.mp (h.symm.trans h0)
    rw [ha, hb]
    rfl
  · rw [if_neg h0]
    by_cases hpar : limit_size_for_parallelization < a.dimensions
    · rw [if_pos hpar]; rfl
    · rw [if_neg hpar]
      rw [subSeq_eq_zipWith]

/-- Reading a position of a zipWith of two lists that both cover it gives the
combination of the positions read from each. -/
theorem zip_getD (f : Int → Int → Int) (a b : List Int) (i : Nat)
    (ha : i < a.length) (hb : i < b.length) :
    (List.zipWith f a b).getD i 0 = f (a.getD i 0) (b.getD i 0) := by
  have hz : i < (List.zipWith f a b).length := by
    rw [List.length_zipWith]; exact lt_min ha hb
  rw [List.getD_eq_getElem _ _ hz, List.getD_eq_getElem _ _ ha,
    List.getD_eq_getElem _ _ hb, List.getElem_zipWith]

/-- The early-exit elementwise walk of operator== decides list equality for
buffers of equal length. -/
theorem eqElems_true_iff : ∀ a b : List Int, a.length = b.length →
    (eqElems a b = true ↔ a = b)
  | [], [], _ => by simp [eqElems]
  | [], _ :: _, h => by simp at h
  | _ :: _, [], h => by simp at h
  | x :: xs, y :: ys, h => by
      have hlen : xs.length = ys.length := by simpa using h
      by_cases hxy : x = y
      · rw [eqElems, if_neg (not_not_intro hxy)]
        rw [eqElems_true_iff xs ys hlen]
        simp [hxy]
      · rw [eqElems, if_pos hxy]
        constructor
        · intro hft; exact absurd hft (by decide)
        · intro he
          exact absurd (by simpa using congrArg (fun l => l.getD 0 0) he) hxy

/-- Lists of equal length are equal exactly when they agree at every index. -/
theorem list_eq_iff_getD (a b : List Int) (h : a.length = b.length) :
    a = b ↔ ∀ i, i < a.length → a.getD i 0 = b.getD i 0 := by
  constructor
  · intro he i hi; rw [he]
  · intro hp
    apply List.ext_getElem h
    intro i h1 h2
    have hg := hp i h1
    rwa [List.getD_eq_getElem _ _ h1, List.getD_eq_getElem _ _ h2] at hg

/-- Evaluation lemma for magnitude: once the sum of squares is known and a
nonnegative real squares to it, that real is the magnitude. -/
theorem magnitude_eval (v : Vector) (n : Int) (r : ℝ) (h1 : v.sumSquares = n)
    (h2 : 0 ≤ r) (h3 : r ^ 2 = (n : ℝ)) : v.magnitude = r := by
  unfold Vector.magnitude
  rw [h1, ← h3, Real.sqrt_sq h2]

/-! Claim theorems. -/

/-- C1: evaluation of operator[] at the failing input. On a zero-dimension
vector the bounds check `index > m_dimensions - 1` underflows on size_t, so
no index — including 0 — raises the out-of-bounds error; the access instead
reads past the empty buffer (modelled as `Option.none`). This contradicts
the claim that every index on a zero-dimension vector fails. On a
five-element vector the check behaves as specified: index 5 fails, index 4
succeeds. -/
theorem C1_zero_dim_access_eval :
    (Vector.ofList []).getIdx 0 = .ok none
    ∧ (Vector.ofList []).getIdx 5 = .ok none
    ∧ (Vector.ofList [9, 3, 4, 1, 4]).getIdx 5 = .error msgOutOfBounds
    ∧ (Vector.ofList [9, 3, 4, 1, 4]).getIdx 4 = .ok (some 4) := by
  refine ⟨?_, ?_, ?_, ?_⟩ <;> rfl

/-- C2: evaluation of dot_product at the failing input. The source contains no
emptiness check: two zero-dimension operands pass the equal-size test and the
sequential loop returns the accumulator T() = 0, where the claim (and the
repository's own test dotProductEmptyVectors) demand a DegenerateOperand
error. On equal nonempty operands the sum of pairwise products is returned:
dot product of [7, 3, 9, 12] and [2, 8, 4, 17] is 278. -/
theorem C2_dot_product_eval :
    dot_product (Vector.ofList []) (Vector.ofList []) = .ok 0
    ∧ dot_product (Vector.ofList [7, 3, 9, 12]) (Vector.ofList [2, 8, 4, 17]) = .ok 278 := by
  exact ⟨rfl, rfl⟩

/-- C3 counterexample: the size-only constructor does not zero-initialize.
With the freshly allocated buffer holding the (indeterminate) value 5, the
constructed one-element vector holds 5, not 0, refuting the claim that every
element is zero-initialized. -/
theorem C3_counterexample :
    (Vector.mkSized 1 (fun _ => (5 : Int))).dimensions = 1
    ∧ (Vector.mkSized 1 (fun _ => (5 : Int))).data.getD 0 0 ≠ 0 := by
  exact ⟨rfl, by decide⟩

/-- C3 amended: constructing a Vector from a size alone yields dimensions
equal to that size, but the elements are default-initialized and unspecified
— they are whatever the fresh allocation held, not zero. -/
theorem C3_size_ctor (dims : Nat) (junk : Nat → Int) :
    (Vector.mkSized dims junk).dimensions = dims
    ∧ ∀ i, i < dims → (Vector.mkSized dims junk).data.getD i 0 = junk i := by
  constructor
  · simp [Vector.mkSized, Vector.dimensions]
  · intro i hi
    have hlen : i < ((List.range dims).map junk).length := by simp [hi]
    show ((List.range dims).map junk).getD i 0 = junk i
    rw [List.getD_eq_getElem _ _ hlen, List.getElem_map, List.getElem_range]

/-- C3 witness: the amended statement at a concrete size and concrete
allocation contents. -/
theorem C3_size_ctor_witness :
    (Vector.mkSized 2 (fun i => (i : Int) + 7)).dimensions = 2
    ∧ (Vector.mkSized 2 (fun i => (i : Int) + 7)).data.getD 1 0 = 8 := by
  have h := C3_size_ctor 2 (fun i => (i : Int) + 7)
  refine ⟨h.1, ?_⟩
  rw [h.2 1 (by decide)]
  norm_num

/-- C4: on operands of unequal dimensions, operator+, operator- and
dot_product all return the size-mismatch error and no result vector or value
at all — in particular no partially computed result. -/
theorem C4_size_mismatch (a b : Vector) (h : a.dimensions ≠ b.dimensions) :
    a.add b = .error msgUnequalSizes
    ∧ a.sub b = .error msgUnequalSizes
    ∧ dot_product a b = .error msgDotMismatch := by
  have hba : b.dimensions ≠ a.dimensions := fun he => h he.symm
  refine ⟨?_, ?_, ?_⟩
  · unfold Vector.add
    rw [if_pos hba]
  · unfold Vector.sub
    rw [if_pos hba]
  · unfold dot_product
    rw [if_pos hba]

/-- C4 witness: the mismatch rejection at the concrete operands used by the
repository's tests, a four-element and a five-element vector. -/
theorem C4_size_mismatch_witness :
    (Vector.ofList [7, 8, 9, 12]).add (Vector.ofList [2, 3, 4, 14, 7]) = .error msgUnequalSizes
    ∧ (Vector.ofList [7, 8, 9, 12]).sub (Vector.ofList [2, 3, 4, 14, 7]) = .error msgUnequalSizes
    ∧ dot_product (Vector.ofList [7, 8, 9, 12]) (Vector.ofList [2, 3, 4, 14, 7]) = .error msgDotMismatch :=
  C4_size_mismatch (Vector.ofList [7, 8, 9, 12]) (Vector.ofList [2, 3, 4, 14, 7]) (by decide)

/-- C5: on operands of equal dimensions, operator+ (respectively operator-)
returns a new vector of the same dimensions whose element at each index i is
the sum (respectively difference) of the operands' elements at i — the
operands, being inputs of a pure function in this embedding, are unmodified —
and two zero-length operands yield a new zero-length vector, not an error. -/
theorem C5_elementwise (a b : Vector) (h : a.dimensions = b.dimensions) :
    (∃ r, a.add b = .ok r ∧ r.dimensions = a.dimensions
      ∧ ∀ i, i < a.dimensions → r.data.getD i 0 = a.data.getD i 0 + b.data.getD i 0)
    ∧ (∃ s, a.sub b = .ok s ∧ s.dimensions = a.dimensions
      ∧ ∀ i, i < a.dimensions → s.data.getD i 0 = a.data.getD i 0 - b.data.getD i 0)
    ∧ (a.dimensions = 0 → a.add b = .ok (Vector.ofList []) ∧ a.sub b = .ok (Vector.ofList [])) := by
  have hb : (Vector.dimensions b : Nat) = b.data.length := rfl
  refine ⟨⟨⟨List.zipWith (fun x y => x + y) a.data b.data⟩, add_ok a b h, ?_, ?_⟩,
    ⟨⟨List.zipWith (fun x y => x - y) a.data b.data⟩, sub_ok a b h, ?_, ?_⟩, ?_⟩
  · show (List.zipWith (fun x y => x + y) a.data b.data).length = a.data.length
    rw [List.length_zipWith]
    exact min_eq_left (le_of_eq h)
  · intro i hi
    exact zip_getD _ a.data b.data i hi (by rw [← hb, ← h]; exact hi)
  · show (List.zipWith (fun x y => x - y) a.data b.data).length = a.data.length
    rw [List.length_zipWith]
    exact min_eq_left (le_of_eq h)
  · intro i hi
    exact zip_getD _ a.data b.data i hi (by rw [← hb, ← h]; exact hi)
  · intro h0
    have ha : a.data = [] := List.length_eq_zero.mp h0
    have hb0 : b.data = [] := List.length_eq_zero.mp (h.symm.trans h0)
    rw [add_ok a b h, sub_ok a b h, ha, hb0]
    exact ⟨rfl, rfl⟩

/-- C5 witness: elementwise addition and subtraction at concrete equal-length
operands. -/
theorem C5_elementwise_witness :
    ∃ r, (Vector.ofList [7, 8, 9, 12]).add (Vector.ofList [2, 3, 4, 14]) = .ok r
      ∧ r.dimensions = 4 ∧ r.data.getD 3 0 = 26 := by
  obtain ⟨⟨r, hr1, hr2, hr3⟩, -, -⟩ :=
    C5_elementwise (Vector.ofList [7, 8, 9, 12]) (Vector.ofList [2, 3, 4, 14]) (by decide)
  refine ⟨r, hr1, hr2.trans (by decide), ?_⟩
  rw [hr3 3 (by decide)]
  decide

/-- C6: the sequential and the parallel execution path of elementwise add,
subtract and dot product agree on every pair of integer operand buffers, so
the threshold dispatch never changes the result; moreover any accumulation
order of the pairwise products (any permutation of them) sums to the
sequential dot product. -/
theorem C6_seq_par_equal (a b : List Int) :
    addSeq a b = addPar a b
    ∧ subSeq a b = subPar a b
    ∧ dotSeq a b = dotPar a b
    ∧ ∀ l : List Int, l.Perm (List.zipWith (fun x y => x * y) a b) → l.sum = dotSeq a b := by
  refine ⟨addSeq_eq_zipWith a b, subSeq_eq_zipWith a b, dotSeq_eq a b, ?_⟩
  intro l hl
  rw [dotSeq_eq]
  exact hl.sum_eq

/-- C6 witness: the path equivalence at concrete operands, including a
reordered accumulation of the products. -/
theorem C6_seq_par_equal_witness :
    addSeq [1, 2] [3, 4] = addPar [1, 2] [3, 4]
    ∧ dotSeq [1, 2] [3, 4] = dotPar [1, 2] [3, 4]
    ∧ ([8, 3] : List Int).sum = dotSeq [1, 2] [3, 4] := by
  obtain ⟨h1, -, h3, h4⟩ := C6_seq_par_equal [1, 2] [3, 4]
  exact ⟨h1, h3, h4 [8, 3] (by decide)⟩

/-- C7: after a move construction or a move assignment the destination holds
the source's original dimensions and element values, and the moved-from
source has dimensions 0 and an empty buffer — the very vector a fresh empty
construction yields; concretely, moving the vector [1, 2, 3, 4] leaves the
destination with four dimensions and the source with zero. -/
theorem C7_move (v w : Vector) :
    (v.moveCtor.1.dimensions = v.dimensions ∧ v.moveCtor.1.data = v.data
      ∧ v.moveCtor.2.dimensions = 0 ∧ v.moveCtor.2 = Vector.ofList [])
    ∧ ((w.moveAssign v).1.dimensions = v.dimensions ∧ (w.moveAssign v).1.data = v.data
      ∧ (w.moveAssign v).2.dimensions = 0 ∧ (w.moveAssign v).2 = Vector.ofList [])
    ∧ ((Vector.ofList [1, 2, 3, 4]).moveCtor.1.dimensions = 4
      ∧ (Vector.ofList [1, 2, 3, 4]).moveCtor.2.dimensions = 0) :=
  ⟨⟨rfl, rfl, rfl, rfl⟩, ⟨rfl, rfl, rfl, rfl⟩, rfl, rfl⟩

/-- C8: magnitude is the square root of the sum of squares of the elements —
it is nonnegative and squares back to that sum — and concretely the vector
[3, 4] has magnitude 5, [6, 8] has magnitude 10, and [1, 2, 2] has
magnitude 3. -/
theorem C8_magnitude :
    (∀ v : Vector, 0 ≤ v.magnitude ∧ v.magnitude ^ 2 = (v.sumSquares : ℝ))
    ∧ (Vector.ofList [3, 4]).magnitude = 5
    ∧ (Vector.ofList [6, 8]).magnitude = 10
    ∧ (Vector.ofList [1, 2, 2]).magnitude = 3 := by
  have hnn : ∀ v : Vector, (0 : ℝ) ≤ (v.sumSquares : ℝ) := by
    intro v
    have hz : (0 : Int) ≤ v.sumSquares := by
      apply List.sum_nonneg
      intro x hx
      obtain ⟨y, -, rfl⟩ := List.mem_map.mp hx
      exact mul_self_nonneg y
    exact_mod_cast hz
  refine ⟨fun v => ⟨Real.sqrt_nonneg _, Real.sq_sqrt (hnn v)⟩, ?_, ?_, ?_⟩
  · exact magnitude_eval _ 25 5 (by decide) (by norm_num) (by norm_num)
  · exact magnitude_eval _ 100 10 (by decide) (by norm_num) (by norm_num)
  · exact magnitude_eval _ 9 3 (by decide) (by norm_num) (by norm_num)

/-- C9: operator== is true exactly when the dimensions are equal and every
corresponding pair of elements is equal — a size mismatch gives false, not an
error — equality is commutative, and operator!= is its exact negation. -/
theorem C9_equality (a b : Vector) :
    (a.veq b = true ↔ a.dimensions = b.dimensions
      ∧ ∀ i, i < a.dimensions → a.data.getD i 0 = b.data.getD i 0)
    ∧ a.veq b = b.veq a
    ∧ a.vne b = !(a.veq b) := by
  refine ⟨?_, ?_, rfl⟩
  · by_cases hd : a.dimensions = b.dimensions
    · unfold Vector.veq
      rw [if_neg (not_not_intro hd.symm)]
      rw [eqElems_true_iff a.data b.data hd, list_eq_iff_getD a.data b.data hd]
      constructor
      · intro hp; exact ⟨hd, hp⟩
      · intro hp; exact hp.2
    · unfold Vector.veq
      rw [if_pos (fun he => hd he.symm)]
      constructor
      · intro hft; exact absurd hft (by decide)
      · intro hp; exact absurd hp.1 hd
  · by_cases hd : a.dimensions = b.dimensions
    · unfold Vector.veq
      rw [if_neg (not_not_intro hd.symm), if_neg (not_not_intro hd)]
      rw [Bool.eq_iff_iff, eqElems_true_iff a.data b.data hd,
        eqElems_true_iff b.data a.data hd.symm]
      exact ⟨Eq.symm, Eq.symm⟩
    · unfold Vector.veq
      rw [if_pos (fun he => hd he.symm), if_pos hd]

/-- C9 witness: the characterization and the commutativity at concrete
vectors from the repository's comparison tests. -/
theorem C9_equality_witness :
    (Vector.ofList [1, 2, 3, 4]).veq (Vector.ofList [1, 2, 3, 4]) = true
    ∧ ((Vector.ofList [1, 2, 3, 4]).veq (Vector.ofList [1, 3, 4, 2])
      = (Vector.ofList [1, 3, 4, 2]).veq (Vector.ofList [1, 2, 3, 4])) := by
  refine ⟨?_, (C9_equality (Vector.ofList [1, 2, 3, 4]) (Vector.ofList [1, 3, 4, 2])).2.1⟩
  exact (C9_equality (Vector.ofList [1, 2, 3, 4]) (Vector.ofList [1, 2, 3, 4])).1.mpr
    ⟨rfl, by decide⟩

/-- C10: writing through operator[] at an in-bounds index changes only that
element: the write succeeds, the dimensions are unchanged, the written index
holds the new value and every other in-bounds index holds its old value.
The dimension bound below 2^64 reflects that m_dimensions is a size_t. -/
theorem C10_set_frame (v : Vector) (i : Nat) (x : Int)
    (hi : i < v.dimensions) (hdims : v.dimensions < size64) :
    ∃ w, v.setIdx i x = .ok w
      ∧ w.dimensions = v.dimensions
      ∧ w.data.getD i 0 = x
      ∧ ∀ j, j < v.dimensions → j ≠ i → w.data.getD j 0 = v.data.getD j 0 := by
  have hcheck : ¬ (sub1szt v.dimensions < i) := by
    rw [sub1szt_pos (by omega) hdims]
    omega
  refine ⟨⟨v.data.set i x⟩, ?_, ?_, ?_, ?_⟩
  · unfold Vector.setIdx
    rw [if_neg hcheck]
  · show (v.data.set i x).length = v.data.length
    exact List.length_set v.data i x
  · have hlen : i < (v.data.set i x).length := by
      rw [List.length_set]; exact hi
    rw [List.getD_eq_getElem _ _ hlen, List.getElem_set_self]
  · intro j hj hne
    have hlen : j < (v.data.set i x).length := by
      rw [List.length_set]; exact hj
    have hlen2 : j < v.data.length := hj
    rw [List.getD_eq_getElem _ _ hlen, List.getD_eq_getElem _ _ hlen2,
      List.getElem_set_ne (fun he => hne he.symm)]

/-- C10 witness: the frame property at a concrete vector, index and value. -/
theorem C10_set_frame_witness :
    ∃ w, (Vector.ofList [1, 2, 3]).setIdx 1 9 = .ok w
      ∧ w.dimensions = 3 ∧ w.data.getD 1 0 = 9 ∧ w.data.getD 0 0 = 1 := by
  obtain ⟨w, hw1, hw2, hw3, hw4⟩ :=
    C10_set_frame (Vector.ofList [1, 2, 3]) 1 9 (by decide) (by decide)
  refine ⟨w, hw1, hw2.trans (by decide), hw3, ?_⟩
  rw [hw4 0 (by decide) (by decide)]
  decide

end Vctr
